import Mathlib

/-!
Verification of the HR-assistant session memory subsystem and the
read-only SQL safety gate, shallowly embedded from the repository source
(src/backend/app/memory_manager.py, src/backend/app/memory.py,
src/backend/app/hr_database_tools.py, src/backend/app/tools.py,
src/backend/main.py).
-/

namespace HR

/-! ## The read-only query safety gate

Embedding of `is_read_only_query` (src/backend/app/hr_database_tools.py
lines 29-38; src/backend/app/tools.py lines 30-39 is an identical copy).
The gate's parser collaborator is the sqlparse library; it is modelled
below from its documented behavior.  Python strings are embedded as
`List Char` with ASCII semantics for the case operations.
-/

def quoteChar : Char := Char.ofNat 39

/-- The whitespace characters Python's `str.strip` removes. -/
def isPySpace (c : Char) : Bool :=
  c == ' ' || c == '\t' || c == '\n' || c == '\r' || c == Char.ofNat 11 || c == Char.ofNat 12

/-- Python `str.strip()`: drop leading and trailing whitespace. -/
def py_strip (l : List Char) : List Char :=
  ((l.dropWhile isPySpace).reverse.dropWhile isPySpace).reverse

/-- Python `str.upper()`, restricted to ASCII letters (the gate only
compares against the ASCII literal `"SELECT"`). -/
def ascii_upper (c : Char) : Char :=
  if 97 ≤ c.toNat && c.toNat ≤ 122 then Char.ofNat (c.toNat - 32) else c

def py_upper (l : List Char) : List Char := l.map ascii_upper

/-- Statement splitter, modelled from the sqlparse library (the gate's
external parser): the input is cut into statements at semicolons outside
single-quoted string literals, each semicolon terminating the statement
it follows; any trailing text forms a final statement.  sqlparse is
non-validating, so splitting never fails. -/
def split_stmts (acc : List Char) (inStr : Bool) : List Char → List (List Char)
  | [] => if acc.isEmpty then [] else [acc.reverse]
  | c :: rest =>
    if inStr then split_stmts (c :: acc) (c != quoteChar) rest
    else if c == ';' then (c :: acc).reverse :: split_stmts [] false rest
    else split_stmts (c :: acc) (c == quoteChar) rest

/-- Modelled from `sqlparse.parse`: the list of parsed statements (each
kept as its raw text).  An empty input parses to no statements. -/
def sqlparse_parse (l : List Char) : List (List Char) := split_stmts [] false l

/-- Drop the characters of a block comment up to and including the
closing delimiter. -/
def drop_block : List Char → List Char
  | '*' :: '/' :: rest => rest
  | _ :: rest => drop_block rest
  | [] => []

/-- Modelled from sqlparse `Statement.token_first(skip_cm=True)`: skip
whitespace and comments in front of the first meaningful token.  The
fuel argument only bounds the recursion; the callers pass enough. -/
def skip_ws_cm : Nat → List Char → List Char
  | 0, l => l
  | _ + 1, [] => []
  | fuel + 1, '-' :: '-' :: rest => skip_ws_cm fuel (rest.dropWhile (fun c => c != '\n'))
  | fuel + 1, '/' :: '*' :: rest => skip_ws_cm fuel (drop_block rest)
  | fuel + 1, c :: rest => if isPySpace c then skip_ws_cm fuel rest else c :: rest

def is_ident_char (c : Char) : Bool := c.isAlpha || c.isDigit || c == '_'

/-- Modelled from sqlparse `Statement.get_type()`: the uppercased first
meaningful token when it is a DML or DDL keyword, otherwise `UNKNOWN`.
(The CTE branch of `get_type` is unreachable through the gate, whose
prefix check already requires the text to start with `SELECT`.) -/
def get_type (stmt : List Char) : String :=
  let word := String.mk (py_upper ((skip_ws_cm (stmt.length + 1) stmt).takeWhile is_ident_char))
  if word == "SELECT" || word == "INSERT" || word == "UPDATE" || word == "DELETE"
      || word == "MERGE" || word == "REPLACE" then word
  else if word == "CREATE" || word == "DROP" || word == "ALTER" || word == "TRUNCATE"
      || word == "GRANT" || word == "REVOKE" then word
  else "UNKNOWN"

/-- Embedding of `is_read_only_query` (src/backend/app/hr_database_tools.py
lines 29-38): uppercase-strip prefix check, then `sqlparse.parse`, then
the type of `parsed[0]` is compared with `'SELECT'`.  The source never
catches exceptions; `none` models an exception escaping the function,
and the only fallible operation is the `parsed[0]` index. -/
def is_read_only_query (sql_query : String) : Option Bool :=
  if ("SELECT".data).isPrefixOf (py_upper (py_strip sql_query.data)) then
    match sqlparse_parse sql_query.data with
    | [] => none
    | stmt :: _ => some (get_type stmt == "SELECT")
  else some false

theorem split_stmts_ne_nil (acc : List Char) (b : Bool) (l : List Char)
    (h : acc ≠ []) : split_stmts acc b l ≠ [] := by
  induction l generalizing acc b with
  | nil =>
    simp only [split_stmts]
    rw [if_neg (by simpa using h)]
    simp
  | cons c rest ih =>
    simp only [split_stmts]
    by_cases hb : b
    · rw [if_pos hb]; exact ih _ _ (by simp)
    · rw [if_neg hb]
      by_cases hc : (c == ';') = true
      · rw [if_pos hc]; simp
      · rw [if_neg hc]; exact ih _ _ (by simp)

theorem sqlparse_parse_ne_nil (l : List Char) (h : l ≠ []) : sqlparse_parse l ≠ [] := by
  match l with
  | [] => exact absurd rfl h
  | c :: rest =>
    simp only [sqlparse_parse, split_stmts]
    by_cases hc : (c == ';') = true
    · rw [if_pos hc]; simp
    · rw [if_neg hc]; exact split_stmts_ne_nil _ _ _ (by simp)

theorem py_strip_nil : py_strip [] = [] := rfl

/-- Claim C1: evaluation of the gate at the claim's four inputs.  The
single SELECT is accepted and the DELETE rejected as claimed, but the
gate returns `true` for both the stacked statement
`SELECT 1; DROP TABLE employees;` and the malformed `SELECT 1 FROM ;;;`,
because it inspects only `parsed[0]` and never counts statements —
contradicting the claim that every multi-statement or malformed input is
rejected. -/
theorem C1_gate_divergence :
    is_read_only_query "SELECT name FROM employees;" = some true ∧
    is_read_only_query "DELETE FROM employees;" = some false ∧
    is_read_only_query "SELECT 1; DROP TABLE employees;" = some true ∧
    is_read_only_query "SELECT 1 FROM ;;;" = some true :=
  ⟨by decide, by decide, by decide, by decide⟩

/-- Claim C5: the gate is total — for every input string it returns a
boolean and no exception escapes.  The only fallible operation in the
source is the `parsed[0]` index, and it is safe: the prefix check
guarantees the text is non-empty, and sqlparse (non-validating) yields
at least one statement for any non-empty text. -/
theorem C5_gate_total (s : String) : ∃ b, is_read_only_query s = some b := by
  unfold is_read_only_query
  by_cases h : (("SELECT".data).isPrefixOf (py_upper (py_strip s.data))) = true
  · rw [if_pos h]
    have hne : s.data ≠ [] := by
      intro hd
      rw [hd] at h
      simp [py_strip, py_upper, List.isPrefixOf] at h
    have hp := sqlparse_parse_ne_nil s.data hne
    cases hh : sqlparse_parse s.data with
    | nil => exact absurd hh hp
    | cons stmt rest => exact ⟨_, rfl⟩
  · rw [if_neg h]; exact ⟨false, rfl⟩

/-! ## The session memory store

Data model embedded from src/backend/app/memory.py: one
`ConversationMemory` row per session, `MemoryMessage` rows owned by it.
The persistent store is embedded as explicit state (`DB`): rows are kept
in insertion order, with the auto-increment primary keys made explicit.
JSON values are embedded as association lists of strings, which is all
the operations in scope ever store in them. -/

structure MemoryMessage where
  id : Nat
  memory_id : Nat
  role : String
  content : String
  timestamp : Int
  message_metadata : List (String × String)
deriving DecidableEq, Repr

structure ConversationMemory where
  id : Nat
  session_id : String
  user_id : Option String
  conversation_summary : Option String
  key_points : List String
  user_preferences : List (String × String)
  context_window : List (String × String)
  created_at : Int
  updated_at : Option Int
deriving DecidableEq, Repr

/-- The persistent store: tables in insertion order plus the next
auto-increment primary key of each. -/
structure DB where
  memories : List ConversationMemory
  messages : List MemoryMessage
  next_memory_id : Nat
  next_message_id : Nat
deriving DecidableEq, Repr

def DB.empty : DB := ⟨[], [], 0, 0⟩

/-- Scan contract for `ORDER BY timestamp DESC`: the store returns some permutation of the
rows weakly sorted by timestamp descending; the relative order of rows
with equal timestamps is unspecified by SQL, so every operation built on
this scan is parameterized by the scan function and every theorem
quantifies over (or exhibits) scan functions satisfying this contract. -/
def ValidTsDesc (f : List MemoryMessage → List MemoryMessage) : Prop :=
  ∀ l, (f l).Perm l ∧ List.Sorted (fun a b => b.timestamp ≤ a.timestamp) (f l)

/-- Scan contract for `ORDER BY timestamp ASC`. -/
def ValidTsAsc (f : List MemoryMessage → List MemoryMessage) : Prop :=
  ∀ l, (f l).Perm l ∧ List.Sorted (fun a b => a.timestamp ≤ b.timestamp) (f l)

/-- Scan contract for `ORDER BY created_at DESC`, used by session listing. -/
def ValidCreatedDesc (f : List ConversationMemory → List ConversationMemory) : Prop :=
  ∀ l, (f l).Perm l ∧ List.Sorted (fun a b => b.created_at ≤ a.created_at) (f l)

/-- One concrete scan order satisfying `ValidTsDesc` (a stable insertion
sort, which keeps rows with equal timestamps in insertion order). -/
def tsDesc : List MemoryMessage → List MemoryMessage :=
  List.insertionSort (fun a b => b.timestamp ≤ a.timestamp)

def tsAsc : List MemoryMessage → List MemoryMessage :=
  List.insertionSort (fun a b => a.timestamp ≤ b.timestamp)

def createdDesc : List ConversationMemory → List ConversationMemory :=
  List.insertionSort (fun a b => b.created_at ≤ a.created_at)

instance : IsTotal MemoryMessage (fun a b => b.timestamp ≤ a.timestamp) :=
  ⟨fun _ _ => le_total _ _⟩

instance : IsTrans MemoryMessage (fun a b => b.timestamp ≤ a.timestamp) :=
  ⟨fun _ _ _ h1 h2 => le_trans h2 h1⟩

instance : IsTotal MemoryMessage (fun a b => a.timestamp ≤ b.timestamp) :=
  ⟨fun _ _ => le_total _ _⟩

instance : IsTrans MemoryMessage (fun a b => a.timestamp ≤ b.timestamp) :=
  ⟨fun _ _ _ h1 h2 => le_trans h1 h2⟩

instance : IsTotal ConversationMemory (fun a b => b.created_at ≤ a.created_at) :=
  ⟨fun _ _ => le_total _ _⟩

instance : IsTrans ConversationMemory (fun a b => b.created_at ≤ a.created_at) :=
  ⟨fun _ _ _ h1 h2 => le_trans h2 h1⟩

theorem validTsDesc_tsDesc : ValidTsDesc tsDesc := fun l =>
  ⟨List.perm_insertionSort _ l, List.sorted_insertionSort _ l⟩

theorem validTsAsc_tsAsc : ValidTsAsc tsAsc := fun l =>
  ⟨List.perm_insertionSort _ l, List.sorted_insertionSort _ l⟩

theorem validCreatedDesc_createdDesc : ValidCreatedDesc createdDesc := fun l =>
  ⟨List.perm_insertionSort _ l, List.sorted_insertionSort _ l⟩

/-! ## Operations of MemoryManager (src/backend/app/memory_manager.py) -/

/-- Embedding of `MemoryManager._get_or_create_memory` (lines 14-33):
point lookup by session_id; on miss, insert a fresh record with empty
key points, preferences and context window.  `created_at` carries the
store's `func.now()` default; `updated_at` has no insert default and is
therefore absent on a fresh record. -/
def get_or_create_memory (db : DB) (session_id : String) (user_id : Option String)
    (now : Int) : DB × ConversationMemory :=
  match db.memories.find? (fun m => m.session_id == session_id) with
  | some m => (db, m)
  | none =>
    let m : ConversationMemory :=
      { id := db.next_memory_id, session_id := session_id, user_id := user_id,
        conversation_summary := none, key_points := [], user_preferences := [],
        context_window := [], created_at := now, updated_at := none }
    ({ db with memories := db.memories ++ [m], next_memory_id := db.next_memory_id + 1 }, m)

/-- Embedding of `MemoryManager._refresh_context_window` (lines 93-107):
re-derive the cached window as the most recent `max_context_length`
messages (timestamp-descending scan `tsScan`, then reversed to
oldest-to-newest {role, content} pairs) and UPDATE the record, which
also fires the `updated_at` onupdate default. -/
def refresh_context_window (tsScan : List MemoryMessage → List MemoryMessage)
    (max_context_length : Nat) (db : DB) (memory_id : Nat) (now : Int) : DB :=
  let recent := (tsScan (db.messages.filter (fun m => m.memory_id == memory_id))).take
    max_context_length
  let ctx := recent.reverse.map (fun m => (m.role, m.content))
  { db with memories := db.memories.map (fun m =>
      if m.id == memory_id then { m with context_window := ctx, updated_at := some now } else m) }

/-- Embedding of `MemoryManager.add_message` (lines 35-46): ensure the
session record exists, insert the message (timestamp from the store's
`func.now()` default), then recompute the cached context window. -/
def add_message (tsScan : List MemoryMessage → List MemoryMessage)
    (max_context_length : Nat) (db : DB) (session_id role content : String)
    (meta : List (String × String)) (now : Int) : DB :=
  let dbm := get_or_create_memory db session_id none now
  let msg : MemoryMessage :=
    { id := dbm.1.next_message_id, memory_id := dbm.2.id, role := role, content := content,
      timestamp := now, message_metadata := meta }
  refresh_context_window tsScan max_context_length
    { dbm.1 with messages := dbm.1.messages ++ [msg],
                 next_message_id := dbm.1.next_message_id + 1 }
    dbm.2.id now

/-- Python `limit or self.max_context_length` (line 58): any falsy limit
(absent or 0) falls back to the default. -/
def or_default (limit : Option Nat) (d : Nat) : Nat :=
  match limit with
  | none => d
  | some 0 => d
  | some (n + 1) => n + 1

/-- Embedding of `MemoryManager.get_context` (lines 48-76): on a missing
session return the empty list; otherwise return up to `limit_val` most
recent messages (timestamp-descending scan, reversed to chronological
order) as {role, content, timestamp} triples.  The store state is
returned unchanged — the operation only queries. -/
def get_context (tsScan : List MemoryMessage → List MemoryMessage)
    (max_context_length : Nat) (db : DB) (session_id : String)
    (limit : Option Nat) : DB × List (String × String × Int) :=
  match db.memories.find? (fun m => m.session_id == session_id) with
  | none => (db, [])
  | some mem =>
    let recent := (tsScan (db.messages.filter (fun m => m.memory_id == mem.id))).take
      (or_default limit max_context_length)
    (db, recent.reverse.map (fun m => (m.role, m.content, m.timestamp)))

def secondsPerDay : Int := 86400

/-- The cleanup filter (lines 83-84): `updated_at IS NOT NULL AND
updated_at < cutoff`. -/
def isStale (cutoff : Int) (m : ConversationMemory) : Bool :=
  match m.updated_at with
  | none => false
  | some t => decide (t < cutoff)

/-- Embedding of `MemoryManager.cleanup` (lines 78-91): delete every
record whose `updated_at` is non-null and strictly before
`now - days_old` days (cascading to its messages via the relationship's
`cascade="all, delete-orphan"`), and return how many were deleted. -/
def cleanup (db : DB) (now : Int) (days_old : Int) : DB × Nat :=
  let old := db.memories.filter (isStale (now - days_old * secondsPerDay))
  ({ db with
      memories := db.memories.filter (fun m => !(isStale (now - days_old * secondsPerDay) m)),
      messages := db.messages.filter (fun msg => !(old.any (fun m => m.id == msg.memory_id))) },
   old.length)

/-! ## The sessions API (src/backend/main.py) -/

/-- Embedding of `create_session` (main.py lines 138-156): point lookup,
insert only on miss; the boolean is the endpoint's `created` flag. -/
def create_session (db : DB) (session_id : String) (now : Int) : DB × Bool :=
  match db.memories.find? (fun m => m.session_id == session_id) with
  | some _ => (db, false)
  | none =>
    let m : ConversationMemory :=
      { id := db.next_memory_id, session_id := session_id, user_id := none,
        conversation_summary := none, key_points := [], user_preferences := [],
        context_window := [], created_at := now, updated_at := none }
    ({ db with memories := db.memories ++ [m], next_memory_id := db.next_memory_id + 1 }, true)

/-- Embedding of `list_sessions` (main.py lines 93-106): session ids in
`created_at`-descending scan order, truncated at `limit`. -/
def list_sessions (memScan : List ConversationMemory → List ConversationMemory)
    (db : DB) (limit : Nat) : List String :=
  ((memScan db.memories).take limit).map (fun m => m.session_id)

/-- Embedding of `get_session_messages` (main.py lines 109-135): on a
missing session the endpoint answers with an empty message list;
otherwise the session's messages in timestamp-ascending scan order,
truncated at `limit`, as {role, content, ts} triples. -/
def get_session_messages (ascScan : List MemoryMessage → List MemoryMessage)
    (db : DB) (session_id : String) (limit : Nat) : List (String × String × Int) :=
  match db.memories.find? (fun m => m.session_id == session_id) with
  | none => []
  | some mem =>
    ((ascScan (db.messages.filter (fun m => m.memory_id == mem.id))).take limit).map
      (fun m => (m.role, m.content, m.timestamp))

/-- Embedding of `delete_session` (main.py lines 159-171): `none` models
the 404 on a missing session; otherwise the record is deleted and the
relationship cascade removes every message it owns. -/
def delete_session (db : DB) (session_id : String) : Option DB :=
  match db.memories.find? (fun m => m.session_id == session_id) with
  | none => none
  | some mem =>
    some { db with
      memories := db.memories.filter (fun m => !(m.id == mem.id)),
      messages := db.messages.filter (fun msg => !(msg.memory_id == mem.id)) }

/-! ## The chat turn (src/backend/main.py lines 44-89) -/

inductive ChatResult where
  | ok (response : String)
  | err (message : String)
deriving DecidableEq, Repr

/-- The context snippet `_chat_sync` builds from the last three context
entries (main.py lines 58-62). -/
def context_snippet (ctx : List (String × String × Int)) : String :=
  if ctx.isEmpty then ""
  else "Recent conversation context:\n" ++ String.intercalate "\n"
    ((ctx.drop (ctx.length - 3)).map
      (fun m => "- " ++ m.1 ++ ": " ++ String.mk (m.2.1.data.take 120) ++ "..."))

/-- Python `session_id or "default"`: a missing or empty id is falsy. -/
def sid_or_default (session_id : Option String) : String :=
  match session_id with
  | none => "default"
  | some s => if s == "" then "default" else s

/-- Embedding of `_chat_sync` (main.py lines 44-89).  The agent system is
an external collaborator: `Except.error` models an exception raised
while generating the reply, caught by the handler's `except` branch,
which turns it into a single textual error result.  The user message is
stored before the agent is consulted, so the store returned on the error
path still holds it. -/
def chat_sync (tsScan : List MemoryMessage → List MemoryMessage)
    (max_context_length : Nat) (agent : String → Except String String)
    (db : DB) (query : String) (session_id : Option String) (now : Int) :
    DB × ChatResult :=
  let sid := sid_or_default session_id
  let db1 := add_message tsScan max_context_length db sid "user" query
    [("ts", toString now)] now
  let snippet := context_snippet (get_context tsScan max_context_length db1 sid none).2
  let user_content :=
    if snippet == "" then query else snippet ++ "\n\nCurrent question: " ++ query
  match agent user_content with
  | Except.error e => (db1, ChatResult.err ("Agent Error: " ++ e))
  | Except.ok response_text =>
    (add_message tsScan max_context_length db1 sid "assistant" response_text
      [("ts", toString now)] now,
     ChatResult.ok response_text)

/-! ## Helper lemmas -/

theorem isStale_iff (c : Int) (m : ConversationMemory) :
    isStale c m = true ↔ ∃ t, m.updated_at = some t ∧ t < c := by
  cases h : m.updated_at <;> simp [isStale, h]

theorem length_filter_add_length_filter_not {α : Type} (p : α → Bool) (l : List α) :
    (l.filter p).length + (l.filter (fun a => !(p a))).length = l.length := by
  induction l with
  | nil => rfl
  | cons a t ih =>
    cases h : p a <;> simp [List.filter, h, ← ih] <;> omega

/-! ## Cleanup: three sessions at the 29/30/31-day boundary -/

def exMem29 : ConversationMemory :=
  { id := 0, session_id := "s29", user_id := none, conversation_summary := none,
    key_points := [], user_preferences := [], context_window := [],
    created_at := 0, updated_at := some (-29 * 86400) }

def exMem30 : ConversationMemory :=
  { id := 1, session_id := "s30", user_id := none, conversation_summary := none,
    key_points := [], user_preferences := [], context_window := [],
    created_at := 0, updated_at := some (-30 * 86400) }

def exMem31 : ConversationMemory :=
  { id := 2, session_id := "s31", user_id := none, conversation_summary := none,
    key_points := [], user_preferences := [], context_window := [],
    created_at := 0, updated_at := some (-31 * 86400) }

def exDb3 : DB := ⟨[exMem29, exMem30, exMem31], [], 3, 0⟩

/-- Claim C3: cleanup deletes exactly the records whose last-update
timestamp is present and strictly older than `now - days_old` days
(cascading to their messages), never deletes a record without an update
timestamp, and returns the number of records removed; at the boundary,
with sessions updated 29, 30 and 31 days ago, `cleanup(days_old=30)`
removes only the 31-day-old one and returns 1. -/
theorem C3_cleanup (db : DB) (now days_old : Int) :
    ((cleanup db now days_old).2
        = db.memories.length - (cleanup db now days_old).1.memories.length) ∧
    (∀ m, m ∈ (cleanup db now days_old).1.memories ↔
        m ∈ db.memories ∧
          ¬∃ t, m.updated_at = some t ∧ t < now - days_old * secondsPerDay) ∧
    (∀ m, m ∈ db.memories → m.updated_at = none →
        m ∈ (cleanup db now days_old).1.memories) ∧
    (∀ msg, msg ∈ (cleanup db now days_old).1.messages ↔
        msg ∈ db.messages ∧
          ¬∃ m, m ∈ db.memories ∧ (∃ t, m.updated_at = some t ∧
            t < now - days_old * secondsPerDay) ∧ m.id = msg.memory_id) ∧
    cleanup exDb3 0 30 = (⟨[exMem29, exMem30], [], 3, 0⟩, 1) := by
  refine ⟨?_, ?_, ?_, ?_, by decide⟩
  · show (db.memories.filter (isStale (now - days_old * secondsPerDay))).length
        = db.memories.length - (db.memories.filter
            (fun m => !(isStale (now - days_old * secondsPerDay) m))).length
    have h := length_filter_add_length_filter_not
      (isStale (now - days_old * secondsPerDay)) db.memories
    omega
  · intro m
    show m ∈ db.memories.filter (fun m => !(isStale (now - days_old * secondsPerDay) m)) ↔ _
    rw [List.mem_filter]
    simp only [Bool.not_eq_true']
    constructor
    · rintro ⟨hm, hs⟩
      refine ⟨hm, fun hex => ?_⟩
      rw [← isStale_iff (now - days_old * secondsPerDay) m] at hex
      rw [hs] at hex
      exact Bool.false_ne_true hex
    · rintro ⟨hm, hns⟩
      refine ⟨hm, ?_⟩
      cases hs : isStale (now - days_old * secondsPerDay) m with
      | false => rfl
      | true => exact absurd ((isStale_iff _ m).mp hs) hns
  · intro m hm hupd
    show m ∈ db.memories.filter (fun m => !(isStale (now - days_old * secondsPerDay) m))
    rw [List.mem_filter]
    exact ⟨hm, by simp [isStale, hupd]⟩
  · intro msg
    show msg ∈ db.messages.filter (fun msg => !((db.memories.filter
        (isStale (now - days_old * secondsPerDay))).any (fun m => m.id == msg.memory_id))) ↔ _
    rw [List.mem_filter]
    constructor
    · rintro ⟨hm, hno⟩
      rw [Bool.not_eq_true'] at hno
      refine ⟨hm, fun hex => ?_⟩
      obtain ⟨m, hmem, hst, hid⟩ := hex
      have h1 : m ∈ db.memories.filter (isStale (now - days_old * secondsPerDay)) :=
        List.mem_filter.mpr ⟨hmem, (isStale_iff _ m).mpr hst⟩
      have h2 : (db.memories.filter (isStale (now - days_old * secondsPerDay))).any
          (fun x => x.id == msg.memory_id) = true :=
        List.any_eq_true.mpr ⟨m, h1, beq_iff_eq.mpr hid⟩
      rw [hno] at h2
      exact Bool.false_ne_true h2
    · rintro ⟨hm, hno⟩
      refine ⟨hm, ?_⟩
      rw [Bool.not_eq_true']
      cases hany : (db.memories.filter (isStale (now - days_old * secondsPerDay))).any
          (fun x => x.id == msg.memory_id) with
      | false => rfl
      | true =>
        obtain ⟨m, hmem, hid⟩ := List.any_eq_true.mp hany
        have hmf := List.mem_filter.mp hmem
        exact absurd ⟨m, hmf.1, (isStale_iff _ m).mp hmf.2, beq_iff_eq.mp hid⟩ hno

/-- Witness for C3: the boundary scenario, via the theorem. -/
theorem C3_cleanup_witness :
    cleanup exDb3 0 30 = (⟨[exMem29, exMem30], [], 3, 0⟩, 1) :=
  (C3_cleanup DB.empty 0 0).2.2.2.2

/-- Claim C4: `get_context` on a session id with no ConversationRecord
returns the empty sequence, not an error, and the store it hands back is
unchanged — in particular no record for that id was created. -/
theorem C4_get_context_missing (tsScan : List MemoryMessage → List MemoryMessage)
    (mcl : Nat) (db : DB) (sid : String) (limit : Option Nat)
    (h : db.memories.find? (fun m => m.session_id == sid) = none) :
    get_context tsScan mcl db sid limit = (db, []) ∧
    (get_context tsScan mcl db sid limit).1.memories.find?
      (fun m => m.session_id == sid) = none := by
  have hmain : get_context tsScan mcl db sid limit = (db, []) := by
    unfold get_context; rw [h]
  exact ⟨hmain, by rw [hmain]; exact h⟩

/-- Witness for C4 at a concrete store and unseen id. -/
theorem C4_get_context_missing_witness :
    get_context tsDesc 10 exDb3 "never-seen-id" none = (exDb3, []) :=
  (C4_get_context_missing tsDesc 10 exDb3 "never-seen-id" none (by decide)).1

/-- Claim C10: a limit of 0 is falsy in `limit or self.max_context_length`,
so `get_context` with an explicit limit of 0 behaves exactly like the
default call — it does not return an empty sequence: whenever the session
exists, has at least one message and max_context_length is positive, the
returned window is nonempty. -/
theorem C10_zero_limit (tsScan : List MemoryMessage → List MemoryMessage)
    (hts : ValidTsDesc tsScan) (mcl : Nat) (db : DB) (sid : String) :
    get_context tsScan mcl db sid (some 0) = get_context tsScan mcl db sid none ∧
    (∀ mem, db.memories.find? (fun m => m.session_id == sid) = some mem →
      0 < mcl → db.messages.filter (fun m => m.memory_id == mem.id) ≠ [] →
      (get_context tsScan mcl db sid (some 0)).2 ≠ []) := by
  refine ⟨rfl, fun mem hfind hmcl hne => ?_⟩
  have hp := (hts (db.messages.filter (fun m => m.memory_id == mem.id))).1
  have hlen : 0 < (tsScan (db.messages.filter (fun m => m.memory_id == mem.id))).length := by
    rw [hp.length_eq]; exact List.length_pos.mpr hne
  have : get_context tsScan mcl db sid (some 0)
      = (db, ((tsScan (db.messages.filter (fun m => m.memory_id == mem.id))).take
          mcl).reverse.map (fun m => (m.role, m.content, m.timestamp))) := by
    unfold get_context; rw [hfind]; rfl
  rw [this]
  apply List.length_pos.mp
  simp only [List.length_map, List.length_reverse, List.length_take]
  exact lt_min hmcl hlen

/-- Witness for C10 at a concrete store. -/
theorem C10_zero_limit_witness :
    get_context tsDesc 10 exDb3 "s29" (some 0) = get_context tsDesc 10 exDb3 "s29" none :=
  (C10_zero_limit tsDesc validTsDesc_tsDesc 10 exDb3 "s29").1

/-! ## Idempotent session creation (claim C6) -/

theorem find?_map_pred {α : Type} (f : α → α) (p : α → Bool) (l : List α)
    (hf : ∀ a, p (f a) = p a) : (l.map f).find? p = (l.find? p).map f := by
  induction l with
  | nil => rfl
  | cons a t ih =>
    cases h : p a with
    | true =>
      rw [List.map_cons, List.find?_cons_of_pos _ ((hf a).trans h), List.find?_cons_of_pos _ h]
      rfl
    | false =>
      rw [List.map_cons, List.find?_cons_of_neg _ (by rw [hf a, h]; exact Bool.false_ne_true),
        List.find?_cons_of_neg _ (by rw [h]; exact Bool.false_ne_true), ih]

theorem create_session_found (db : DB) (sid : String) (now : Int)
    (mem : ConversationMemory)
    (h : db.memories.find? (fun m => m.session_id == sid) = some mem) :
    create_session db sid now = (db, false) := by
  unfold create_session; rw [h]

theorem create_session_miss (db : DB) (sid : String) (now : Int)
    (h : db.memories.find? (fun m => m.session_id == sid) = none) :
    create_session db sid now =
      ({ db with
          memories := db.memories ++
            [{ id := db.next_memory_id, session_id := sid, user_id := none,
               conversation_summary := none, key_points := [], user_preferences := [],
               context_window := [], created_at := now, updated_at := none }],
          next_memory_id := db.next_memory_id + 1 }, true) := by
  unfold create_session; rw [h]

/-- Claim C6: session creation is idempotent — starting from a store with
no record for `sid`, the first `create_session` reports `created`, the
second finds the existing record, creates nothing and leaves the store
untouched; exactly one ConversationRecord for `sid` exists afterwards,
and `list_sessions` shows the id exactly once. -/
theorem C6_create_idempotent
    (memScan : List ConversationMemory → List ConversationMemory)
    (hms : ValidCreatedDesc memScan) (db : DB) (sid : String) (now1 now2 : Int) (limit : Nat)
    (habs : db.memories.find? (fun m => m.session_id == sid) = none)
    (hlim : db.memories.length + 1 ≤ limit) :
    (create_session db sid now1).2 = true ∧
    (create_session (create_session db sid now1).1 sid now2).2 = false ∧
    (create_session (create_session db sid now1).1 sid now2).1
      = (create_session db sid now1).1 ∧
    (create_session db sid now1).1.memories.countP (fun m => m.session_id == sid) = 1 ∧
    (list_sessions memScan (create_session (create_session db sid now1).1 sid now2).1
      limit).count sid = 1 := by
  have h1 := create_session_miss db sid now1 habs
  have hfind1 : (create_session db sid now1).1.memories.find?
      (fun m => m.session_id == sid) = some
        { id := db.next_memory_id, session_id := sid, user_id := none,
          conversation_summary := none, key_points := [], user_preferences := [],
          context_window := [], created_at := now1, updated_at := none } := by
    rw [h1]
    show (db.memories ++ [_]).find? _ = _
    rw [List.find?_append, habs]
    simp [List.find?]
  have h2 := create_session_found (create_session db sid now1).1 sid now2 _ hfind1
  have hcount : (create_session db sid now1).1.memories.countP
      (fun m => m.session_id == sid) = 1 := by
    rw [h1]
    show ((db.memories ++ [_]).countP _) = 1
    rw [List.countP_append,
      List.countP_eq_zero.mpr (fun a ha => List.find?_eq_none.mp habs a ha)]
    simp [List.countP, List.countP.go]
  refine ⟨by rw [h1], by rw [h2], by rw [h2], hcount, ?_⟩
  rw [h2]
  unfold list_sessions
  have hperm := (hms (create_session db sid now1).1.memories).1
  have hlen2 : (memScan (create_session db sid now1).1.memories).length ≤ limit := by
    rw [hperm.length_eq, h1]
    simpa using hlim
  rw [List.take_of_length_le hlen2, List.count_eq_countP, List.countP_map,
    hperm.countP_eq _]
  exact hcount

/-- Witness for C6 at a concrete fresh store. -/
theorem C6_create_idempotent_witness :
    (create_session DB.empty "alpha" 0).1.memories.countP
      (fun m => m.session_id == "alpha") = 1 ∧
    (create_session (create_session DB.empty "alpha" 0).1 "alpha" 1).2 = false :=
  ⟨(C6_create_idempotent createdDesc validCreatedDesc_createdDesc DB.empty "alpha" 0 1 50
      (by decide) (by decide)).2.2.2.1,
   (C6_create_idempotent createdDesc validCreatedDesc_createdDesc DB.empty "alpha" 0 1 50
      (by decide) (by decide)).2.1⟩

/-! ## Deletion cascade (claim C7) -/

/-- Claim C7: deleting a session removes its ConversationRecord and every
MemoryMessage it owns; afterwards `get_context` returns empty and
`get_session_messages` returns an empty list, neither an error.  The
hypothesis `hcount` is the store invariant of at most one record per
session id. -/
theorem C7_delete_cascade (tsScan ascScan : List MemoryMessage → List MemoryMessage)
    (db db2 : DB) (sid : String) (mcl mlimit : Nat) (limit : Option Nat)
    (hcount : db.memories.countP (fun m => m.session_id == sid) ≤ 1)
    (hdel : delete_session db sid = some db2) :
    db2.memories.find? (fun m => m.session_id == sid) = none ∧
    (∀ mem, mem ∈ db.memories → mem.session_id = sid →
      ∀ msg, msg ∈ db2.messages → msg.memory_id ≠ mem.id) ∧
    get_context tsScan mcl db2 sid limit = (db2, []) ∧
    get_session_messages ascScan db2 sid mlimit = [] := by
  cases hfind : db.memories.find? (fun m => m.session_id == sid) with
  | none => unfold delete_session at hdel; rw [hfind] at hdel; exact absurd hdel (by simp)
  | some mem0 =>
    unfold delete_session at hdel
    rw [hfind] at hdel
    have hdb2 : db2 = { db with
        memories := db.memories.filter (fun m => !(m.id == mem0.id)),
        messages := db.messages.filter (fun msg => !(msg.memory_id == mem0.id)) } := by
      cases hdel; rfl
    have hmem0 : mem0 ∈ db.memories := List.mem_of_find?_eq_some hfind
    have hp0 := List.find?_some hfind
    have huniq : ∀ m, m ∈ db.memories → (m.session_id == sid) = true → m = mem0 := by
      intro m hm hpm
      by_contra hne
      have hperm := List.perm_cons_erase hmem0
      have hmerase : m ∈ db.memories.erase mem0 := (List.mem_erase_of_ne hne).mpr hm
      have h2 : 0 < (db.memories.erase mem0).countP (fun m => m.session_id == sid) :=
        List.countP_pos_iff.mpr ⟨m, hmerase, hpm⟩
      have h3 := hperm.countP_eq (fun m => m.session_id == sid)
      rw [List.countP_cons_of_pos (fun (m : ConversationMemory) => m.session_id == sid) _ hp0]
        at h3
      omega
    have hnone : db2.memories.find? (fun m => m.session_id == sid) = none := by
      rw [hdb2]
      apply List.find?_eq_none.mpr
      intro x hx hpx
      have hxf := List.mem_filter.mp hx
      have hxid : (x.id == mem0.id) = false := by simpa using hxf.2
      have := huniq x hxf.1 hpx
      rw [this] at hxid
      simp at hxid
    refine ⟨hnone, ?_, ?_, ?_⟩
    · intro mem hmem hsid msg hmsg
      have hmeq : mem = mem0 := huniq mem hmem (beq_iff_eq.mpr hsid)
      rw [hdb2] at hmsg
      have hmf := List.mem_filter.mp hmsg
      have hni : (msg.memory_id == mem0.id) = false := by simpa using hmf.2
      rw [hmeq]
      intro hcontra
      rw [hcontra] at hni
      simp at hni
    · unfold get_context; rw [hnone]
    · unfold get_session_messages; rw [hnone]

def exMsg0 : MemoryMessage :=
  { id := 0, memory_id := 0, role := "user", content := "hello",
    timestamp := 0, message_metadata := [] }

def exDbOne : DB := ⟨[exMem29], [exMsg0], 1, 1⟩

/-- Witness for C7: deleting the only session of a one-session store. -/
theorem C7_delete_cascade_witness :
    delete_session exDbOne "s29" = some ⟨[], [], 1, 1⟩ ∧
    get_session_messages tsAsc ⟨[], [], 1, 1⟩ "s29" 100 = [] :=
  ⟨by decide,
   (C7_delete_cascade tsDesc tsAsc exDbOne ⟨[], [], 1, 1⟩ "s29" 10 100 none
      (by decide) (by decide)).2.2.2⟩

/-! ## User message persisted before the agent runs (claim C8) -/

theorem add_message_messages (tsScan : List MemoryMessage → List MemoryMessage)
    (mcl : Nat) (db : DB) (sid role content : String)
    (meta : List (String × String)) (now : Int) :
    (add_message tsScan mcl db sid role content meta now).messages =
      db.messages ++
        [{ id := db.next_message_id,
           memory_id := (get_or_create_memory db sid none now).2.id,
           role := role, content := content, timestamp := now,
           message_metadata := meta }] ∧
    (add_message tsScan mcl db sid role content meta now).next_message_id
      = db.next_message_id + 1 := by
  cases h : db.memories.find? (fun m => m.session_id == sid) with
  | none => simp [add_message, get_or_create_memory, refresh_context_window, h]
  | some mem => simp [add_message, get_or_create_memory, refresh_context_window, h]

/-- Claim C8: in a chat turn the user's message is written to the store
before the agent is invoked, so when reply generation fails the caller
receives a single textual error result and the stored user message is
still present in the resulting store. -/
theorem C8_user_message_persisted (tsScan : List MemoryMessage → List MemoryMessage)
    (mcl : Nat) (agent : String → Except String String) (emsg : String)
    (hagent : ∀ s, agent s = Except.error emsg)
    (db : DB) (query : String) (session_id : Option String) (now : Int) :
    (chat_sync tsScan mcl agent db query session_id now).2
      = ChatResult.err ("Agent Error: " ++ emsg) ∧
    (∃ msg, msg ∈ (chat_sync tsScan mcl agent db query session_id now).1.messages ∧
      msg.role = "user" ∧ msg.content = query) := by
  unfold chat_sync
  simp only [hagent]
  refine ⟨trivial, ?_⟩
  have hmsgs := (add_message_messages tsScan mcl db (sid_or_default session_id) "user"
    query [("ts", toString now)] now).1
  refine ⟨{ id := db.next_message_id,
            memory_id := (get_or_create_memory db (sid_or_default session_id) none now).2.id,
            role := "user", content := query, timestamp := now,
            message_metadata := [("ts", toString now)] }, ?_, rfl, rfl⟩
  show _ ∈ (add_message tsScan mcl db (sid_or_default session_id) "user" query
    [("ts", toString now)] now).messages
  rw [hmsgs]
  exact List.mem_append_right _ (List.mem_singleton.mpr rfl)

/-- Witness for C8: a failing agent on an empty store. -/
theorem C8_user_message_persisted_witness :
    (chat_sync tsDesc 10 (fun _ => Except.error "boom") DB.empty "hi" none 0).2
      = ChatResult.err ("Agent Error: " ++ "boom") :=
  (C8_user_message_persisted tsDesc 10 (fun _ => Except.error "boom") "boom"
    (fun _ => rfl) DB.empty "hi" none 0).1

/-! ## Round-trip through storage (claim C9) -/

theorem upd_preserves_id (m : ConversationMemory) (memid : Nat)
    (c : List (String × String)) (u : Option Int) :
    ((if m.id == memid then { m with context_window := c, updated_at := u } else m)
      : ConversationMemory).id = m.id := by
  by_cases h : (m.id == memid) = true <;> simp [h]

theorem refresh_context_window_find (tsScan : List MemoryMessage → List MemoryMessage)
    (mcl : Nat) (mems : List ConversationMemory) (msgs : List MemoryMessage)
    (nmi nsi : Nat) (memid : Nat) (now : Int) (sid : String) :
    (refresh_context_window tsScan mcl ⟨mems, msgs, nmi, nsi⟩ memid now).memories.find?
        (fun m => m.session_id == sid)
      = (mems.find? (fun m => m.session_id == sid)).map
          (fun m => if m.id == memid
            then { m with
                context_window := ((tsScan (msgs.filter
                  (fun x => x.memory_id == memid))).take mcl).reverse.map
                  (fun x => (x.role, x.content)),
                updated_at := some now }
            else m) := by
  exact find?_map_pred _ _ _
    (fun a => by by_cases h : (a.id == memid) = true <;> simp [h])

theorem add_message_find (tsScan : List MemoryMessage → List MemoryMessage)
    (mcl : Nat) (db : DB) (sid role content : String)
    (meta : List (String × String)) (now : Int) :
    ∃ mem2, (add_message tsScan mcl db sid role content meta now).memories.find?
        (fun m => m.session_id == sid) = some mem2 ∧
      mem2.id = (get_or_create_memory db sid none now).2.id := by
  cases h : db.memories.find? (fun m => m.session_id == sid) with
  | some mem0 =>
    have hg : get_or_create_memory db sid none now = (db, mem0) := by
      unfold get_or_create_memory; rw [h]
    have hdecomp : add_message tsScan mcl db sid role content meta now
        = refresh_context_window tsScan mcl
            { db with
                messages := db.messages ++
                  [{ id := db.next_message_id, memory_id := mem0.id, role := role,
                     content := content, timestamp := now, message_metadata := meta }],
                next_message_id := db.next_message_id + 1 }
            mem0.id now := by
      unfold add_message; rw [hg]
    rw [hdecomp, refresh_context_window_find, h]
    refine ⟨_, rfl, ?_⟩
    rw [hg]
    exact upd_preserves_id mem0 mem0.id _ _
  | none =>
    have hg : get_or_create_memory db sid none now =
        ({ db with
            memories := db.memories ++
              [{ id := db.next_memory_id, session_id := sid, user_id := none,
                 conversation_summary := none, key_points := [], user_preferences := [],
                 context_window := [], created_at := now, updated_at := none }],
            next_memory_id := db.next_memory_id + 1 },
         { id := db.next_memory_id, session_id := sid, user_id := none,
           conversation_summary := none, key_points := [], user_preferences := [],
           context_window := [], created_at := now, updated_at := none }) := by
      unfold get_or_create_memory; rw [h]
    have hdecomp : add_message tsScan mcl db sid role content meta now
        = refresh_context_window tsScan mcl
            { memories := db.memories ++
                [{ id := db.next_memory_id, session_id := sid, user_id := none,
                   conversation_summary := none, key_points := [], user_preferences := [],
                   context_window := [], created_at := now, updated_at := none }],
              messages := db.messages ++
                [{ id := db.next_message_id, memory_id := db.next_memory_id, role := role,
                   content := content, timestamp := now, message_metadata := meta }],
              next_memory_id := db.next_memory_id + 1,
              next_message_id := db.next_message_id + 1 }
            db.next_memory_id now := by
      unfold add_message; rw [hg]
    rw [hdecomp, refresh_context_window_find, List.find?_append, h]
    have hfs : (List.find? (fun (m : ConversationMemory) => m.session_id == sid)
        [{ id := db.next_memory_id, session_id := sid, user_id := none,
           conversation_summary := none, key_points := [], user_preferences := [],
           context_window := [], created_at := now, updated_at := none }])
        = some { id := db.next_memory_id, session_id := sid, user_id := none,
                 conversation_summary := none, key_points := [], user_preferences := [],
                 context_window := [], created_at := now, updated_at := none } := by
      simp [List.find?]
    rw [hfs]
    refine ⟨_, rfl, ?_⟩
    rw [hg]
    exact upd_preserves_id _ _ _ _

/-- Claim C9: round-trip through storage — a message added with any role,
content and metadata mapping, when retrieved through the
session-messages surface, appears with exactly the role and content that
were given.  The limit hypothesis keeps the endpoint's truncation (its
default is 100) from cutting the listing short. -/
theorem C9_roundtrip (tsScan ascScan : List MemoryMessage → List MemoryMessage)
    (hasc : ValidTsAsc ascScan) (mcl : Nat) (db : DB) (sid role content : String)
    (meta : List (String × String)) (now : Int) (limit : Nat)
    (hlim : db.messages.length < limit) :
    ∃ e, e ∈ get_session_messages ascScan
        (add_message tsScan mcl db sid role content meta now) sid limit ∧
      e.1 = role ∧ e.2.1 = content := by
  obtain ⟨mem2, hfind2, hid2⟩ := add_message_find tsScan mcl db sid role content meta now
  have hmsgs := (add_message_messages tsScan mcl db sid role content meta now).1
  unfold get_session_messages
  rw [hfind2]
  have hmsg : (MemoryMessage.mk db.next_message_id
      (get_or_create_memory db sid none now).2.id role content now meta) ∈
      (add_message tsScan mcl db sid role content meta now).messages.filter
        (fun m => m.memory_id == mem2.id) := by
    rw [hmsgs]
    apply List.mem_filter.mpr
    refine ⟨List.mem_append_right _ (List.mem_singleton.mpr rfl), ?_⟩
    show ((get_or_create_memory db sid none now).2.id == mem2.id) = true
    rw [hid2]
    simp
  have hpoollen : ((add_message tsScan mcl db sid role content meta now).messages.filter
      (fun m => m.memory_id == mem2.id)).length ≤ limit := by
    rw [hmsgs]
    have hfl := List.length_filter_le (fun m => m.memory_id == mem2.id)
      (db.messages ++ [MemoryMessage.mk db.next_message_id
        (get_or_create_memory db sid none now).2.id role content now meta])
    rw [List.length_append] at hfl
    simp only [List.length_singleton] at hfl
    omega
  have hperm := (hasc ((add_message tsScan mcl db sid role content meta now).messages.filter
    (fun m => m.memory_id == mem2.id))).1
  have htake : ((ascScan ((add_message tsScan mcl db sid role content meta now).messages.filter
      (fun m => m.memory_id == mem2.id))).take limit)
      = ascScan ((add_message tsScan mcl db sid role content meta now).messages.filter
        (fun m => m.memory_id == mem2.id)) :=
    List.take_of_length_le (by rw [hperm.length_eq]; exact hpoollen)
  show ∃ e, e ∈ List.map (fun m => (m.role, m.content, m.timestamp))
      (List.take limit (ascScan ((add_message tsScan mcl db sid role content
        meta now).messages.filter (fun m => m.memory_id == mem2.id)))) ∧
    e.1 = role ∧ e.2.1 = content
  rw [htake]
  exact ⟨(role, content, now),
    List.mem_map_of_mem _ (hperm.mem_iff.mpr hmsg), rfl, rfl⟩

/-- Witness for C9 on a concrete store with metadata. -/
theorem C9_roundtrip_witness :
    ∃ e, e ∈ get_session_messages tsAsc
        (add_message tsDesc 10 exDbOne "s29" "assistant" "reply" [("k", "v")] 7) "s29" 100 ∧
      e.1 = "assistant" ∧ e.2.1 = "reply" :=
  C9_roundtrip tsDesc tsAsc validTsAsc_tsAsc 10 exDbOne "s29" "assistant" "reply"
    [("k", "v")] 7 100 (by decide)

/-! ## The bounded context window (claim C2)

A sequence of `add_message` calls on one session, each call given as a
(role, content, timestamp) triple. -/

def run_adds (tsScan : List MemoryMessage → List MemoryMessage) (mcl : Nat)
    (db : DB) (sid : String) (calls : List (String × String × Int)) : DB :=
  calls.foldl (fun d c => add_message tsScan mcl d sid c.1 c.2.1 [] c.2.2) db

/-- The message rows such a run produces, with ids starting at `i`. -/
def mk_msgs (i : Nat) : List (String × String × Int) → List MemoryMessage
  | [] => []
  | c :: t => MemoryMessage.mk i 0 c.1 c.2.1 c.2.2 [] :: mk_msgs (i + 1) t

/-- The store shape reached by running only `add_message` calls for one
session against an empty store. -/
def chain_state (sid : String) (cw : List (String × String)) (ua : Option Int)
    (t0 : Int) (calls : List (String × String × Int)) : DB :=
  { memories := [ConversationMemory.mk 0 sid none none [] [] cw t0 ua],
    messages := mk_msgs 0 calls,
    next_memory_id := 1, next_message_id := calls.length }

theorem mk_msgs_append (x : String × String × Int) :
    ∀ (l : List (String × String × Int)) (i : Nat),
    mk_msgs i (l ++ [x]) = mk_msgs i l ++ [MemoryMessage.mk (i + l.length) 0 x.1 x.2.1 x.2.2 []] := by
  intro l
  induction l with
  | nil => intro i; simp [mk_msgs]
  | cons c t ih =>
    intro i
    show MemoryMessage.mk i 0 c.1 c.2.1 c.2.2 [] :: mk_msgs (i + 1) (t ++ [x]) = _
    rw [ih (i + 1)]
    simp [mk_msgs]
    omega

theorem mk_msgs_length : ∀ (l : List (String × String × Int)) (i : Nat),
    (mk_msgs i l).length = l.length := by
  intro l
  induction l with
  | nil => intro i; rfl
  | cons c t ih => intro i; simp [mk_msgs, ih]

theorem mk_msgs_filter : ∀ (l : List (String × String × Int)) (i : Nat),
    (mk_msgs i l).filter (fun m => m.memory_id == 0) = mk_msgs i l := by
  intro l
  induction l with
  | nil => intro i; rfl
  | cons c t ih => intro i; simp [mk_msgs, List.filter, ih]

theorem mk_msgs_map : ∀ (l : List (String × String × Int)) (i : Nat),
    (mk_msgs i l).map (fun m => (m.role, m.content, m.timestamp))
      = l.map (fun c => (c.1, c.2.1, c.2.2)) := by
  intro l
  induction l with
  | nil => intro i; rfl
  | cons c t ih => intro i; simp [mk_msgs, ih]

theorem mk_msgs_drop : ∀ (j : Nat) (l : List (String × String × Int)) (i : Nat),
    (mk_msgs i l).drop j = mk_msgs (i + j) (l.drop j) := by
  intro j
  induction j with
  | zero => intro l i; simp
  | succ j ih =>
    intro l i
    cases l with
    | nil => rfl
    | cons c t =>
      show (mk_msgs (i + 1) t).drop j = _
      rw [ih t (i + 1)]
      have : i + 1 + j = i + (j + 1) := by omega
      rw [this]
      rfl

theorem mem_mk_msgs : ∀ (l : List (String × String × Int)) (i : Nat)
    (m : MemoryMessage), m ∈ mk_msgs i l → ∃ c ∈ l, m.timestamp = c.2.2 := by
  intro l
  induction l with
  | nil => intro i m hm; exact absurd hm (by simp [mk_msgs])
  | cons c t ih =>
    intro i m hm
    rcases List.mem_cons.mp hm with h | h
    · exact ⟨c, List.mem_cons_self c t, by rw [h]⟩
    · obtain ⟨c2, hc2, hts⟩ := ih (i + 1) m h
      exact ⟨c2, List.mem_cons_of_mem c hc2, hts⟩

theorem mk_msgs_pairwise_lt (l : List (String × String × Int))
    (hmono : l.Pairwise (fun a b => a.2.2 < b.2.2)) :
    ∀ i, (mk_msgs i l).Pairwise (fun a b => a.timestamp < b.timestamp) := by
  induction l with
  | nil => intro i; exact List.Pairwise.nil
  | cons c t ih =>
    intro i
    rw [List.pairwise_cons] at hmono
    simp only [mk_msgs]
    rw [List.pairwise_cons]
    refine ⟨?_, ih hmono.2 (i + 1)⟩
    intro b hb
    obtain ⟨c2, hc2, hts⟩ := mem_mk_msgs t (i + 1) b hb
    show c.2.2 < b.timestamp
    rw [hts]
    exact hmono.1 c2 hc2

/-- A weakly timestamp-descending permutation of a strictly descending
list is that list itself: the relative order of rows with distinct
timestamps is forced. -/
theorem perm_sorted_desc_eq : ∀ (l1 l2 : List MemoryMessage),
    l2.Perm l1 →
    l1.Pairwise (fun a b => b.timestamp < a.timestamp) →
    l2.Pairwise (fun a b => b.timestamp ≤ a.timestamp) →
    l2 = l1 := by
  intro l1
  induction l1 with
  | nil => intro l2 hperm _ _; exact hperm.eq_nil
  | cons a t ih =>
    intro l2 hperm h1 h2
    cases l2 with
    | nil =>
      have := hperm.symm.eq_nil
      exact absurd this (by simp)
    | cons b u =>
      have hba : b = a := by
        by_contra hne
        have hbmem : b ∈ a :: t := hperm.subset (List.mem_cons_self b u)
        have hbt : b ∈ t := by
          rcases List.mem_cons.mp hbmem with h | h
          · exact absurd h hne
          · exact h
        have hlt : b.timestamp < a.timestamp := (List.pairwise_cons.mp h1).1 b hbt
        have hamem : a ∈ b :: u := hperm.symm.subset (List.mem_cons_self a t)
        have hau : a ∈ u := by
          rcases List.mem_cons.mp hamem with h | h
          · exact absurd h.symm hne
          · exact h
        have hle : a.timestamp ≤ b.timestamp := (List.pairwise_cons.mp h2).1 a hau
        omega
      subst hba
      have hperm2 : u.Perm t := hperm.cons_inv
      rw [ih u hperm2 h1.of_cons h2.of_cons]

/-- One `add_message` call on a chain-shaped store extends the message
rows and refreshes the record's window and update timestamp. -/
theorem add_message_chain (tsScan : List MemoryMessage → List MemoryMessage)
    (mcl : Nat) (sid : String) (cw : List (String × String)) (ua : Option Int)
    (t0 : Int) (calls : List (String × String × Int)) (x : String × String × Int) :
    ∃ cw2, add_message tsScan mcl (chain_state sid cw ua t0 calls) sid x.1 x.2.1 [] x.2.2
      = chain_state sid cw2 (some x.2.2) t0 (calls ++ [x]) := by
  have hfind : (chain_state sid cw ua t0 calls).memories.find?
      (fun m => m.session_id == sid)
      = some (ConversationMemory.mk 0 sid none none [] [] cw t0 ua) := by
    simp [chain_state, List.find?]
  have hg : get_or_create_memory (chain_state sid cw ua t0 calls) sid none x.2.2
      = (chain_state sid cw ua t0 calls, ConversationMemory.mk 0 sid none none [] [] cw t0 ua) := by
    unfold get_or_create_memory; rw [hfind]
  have hdecomp : add_message tsScan mcl (chain_state sid cw ua t0 calls) sid x.1 x.2.1 [] x.2.2
      = refresh_context_window tsScan mcl
          ⟨[ConversationMemory.mk 0 sid none none [] [] cw t0 ua],
           mk_msgs 0 calls ++ [MemoryMessage.mk calls.length 0 x.1 x.2.1 x.2.2 []],
           1, calls.length + 1⟩ 0 x.2.2 := by
    unfold add_message; rw [hg]; rfl
  refine ⟨((tsScan ((mk_msgs 0 calls ++ [MemoryMessage.mk calls.length 0 x.1 x.2.1 x.2.2
      []]).filter (fun m => m.memory_id == 0))).take mcl).reverse.map
      (fun m => (m.role, m.content)), ?_⟩
  rw [hdecomp]
  unfold refresh_context_window chain_state
  rw [mk_msgs_append x calls 0]
  simp

/-- The first `add_message` call on the empty store creates the session
record and instals the chain shape. -/
theorem add_message_empty (tsScan : List MemoryMessage → List MemoryMessage)
    (mcl : Nat) (sid : String) (x : String × String × Int) :
    ∃ cw2, add_message tsScan mcl DB.empty sid x.1 x.2.1 [] x.2.2
      = chain_state sid cw2 (some x.2.2) x.2.2 [x] := by
  have hg : get_or_create_memory DB.empty sid none x.2.2
      = (⟨[ConversationMemory.mk 0 sid none none [] [] [] x.2.2 none], [], 1, 0⟩,
         ConversationMemory.mk 0 sid none none [] [] [] x.2.2 none) := by
    unfold get_or_create_memory
    rfl
  have hdecomp : add_message tsScan mcl DB.empty sid x.1 x.2.1 [] x.2.2
      = refresh_context_window tsScan mcl
          ⟨[ConversationMemory.mk 0 sid none none [] [] [] x.2.2 none],
           [MemoryMessage.mk 0 0 x.1 x.2.1 x.2.2 []], 1, 1⟩ 0 x.2.2 := by
    unfold add_message; rw [hg]; rfl
  refine ⟨((tsScan ([MemoryMessage.mk 0 0 x.1 x.2.1 x.2.2 []].filter
      (fun m => m.memory_id == 0))).take mcl).reverse.map
      (fun m => (m.role, m.content)), ?_⟩
  rw [hdecomp]
  unfold refresh_context_window chain_state
  simp [mk_msgs]

/-- Folding further `add_message` calls keeps the chain shape and
appends the calls. -/
theorem run_adds_chain (tsScan : List MemoryMessage → List MemoryMessage)
    (mcl : Nat) (sid : String) :
    ∀ (rest pre : List (String × String × Int)) (cw : List (String × String))
      (ua : Option Int) (t0 : Int),
    ∃ cw2 ua2, List.foldl (fun d c => add_message tsScan mcl d sid c.1 c.2.1 [] c.2.2)
        (chain_state sid cw ua t0 pre) rest
      = chain_state sid cw2 ua2 t0 (pre ++ rest) := by
  intro rest
  induction rest with
  | nil => intro pre cw ua t0; exact ⟨cw, ua, by simp⟩
  | cons c rest ih =>
    intro pre cw ua t0
    obtain ⟨cwS, hstep⟩ := add_message_chain tsScan mcl sid cw ua t0 pre c
    obtain ⟨cw2, ua2, hrest⟩ := ih (pre ++ [c]) cwS (some c.2.2) t0
    refine ⟨cw2, ua2, ?_⟩
    rw [List.foldl_cons]
    show List.foldl _ (add_message tsScan mcl (chain_state sid cw ua t0 pre)
      sid c.1 c.2.1 [] c.2.2) rest = _
    rw [hstep, hrest, List.append_assoc]
    rfl

/-- Any nonempty run of `add_message` calls from the empty store lands in
the chain shape. -/
theorem run_adds_shape (tsScan : List MemoryMessage → List MemoryMessage)
    (mcl : Nat) (sid : String) (c0 : String × String × Int)
    (rest : List (String × String × Int)) :
    ∃ cw2 ua2, run_adds tsScan mcl DB.empty sid (c0 :: rest)
      = chain_state sid cw2 ua2 c0.2.2 (c0 :: rest) := by
  obtain ⟨cw1, hbase⟩ := add_message_empty tsScan mcl sid c0
  obtain ⟨cw2, ua2, hrest⟩ := run_adds_chain tsScan mcl sid rest [c0] cw1 (some c0.2.2) c0.2.2
  refine ⟨cw2, ua2, ?_⟩
  unfold run_adds
  rw [List.foldl_cons]
  show List.foldl _ (add_message tsScan mcl DB.empty sid c0.1 c0.2.1 [] c0.2.2) rest = _
  rw [hbase, hrest]
  rfl

/-- Running `get_context` on a chain-shaped store whose timestamps are strictly
increasing in insertion order: the window is the last `mcl` calls,
oldest to newest, under every valid timestamp-descending scan. -/
theorem get_context_chain (tsScan : List MemoryMessage → List MemoryMessage)
    (hts : ValidTsDesc tsScan) (mcl : Nat) (sid : String)
    (cw : List (String × String)) (ua : Option Int) (t0 : Int)
    (calls : List (String × String × Int))
    (hmono : calls.Pairwise (fun a b => a.2.2 < b.2.2)) :
    (get_context tsScan mcl (chain_state sid cw ua t0 calls) sid none).2
      = (calls.drop (calls.length - mcl)).map (fun c => (c.1, c.2.1, c.2.2)) := by
  have hfind : (chain_state sid cw ua t0 calls).memories.find?
      (fun m => m.session_id == sid)
      = some (ConversationMemory.mk 0 sid none none [] [] cw t0 ua) := by
    simp [chain_state, List.find?]
  have hshow : (get_context tsScan mcl (chain_state sid cw ua t0 calls) sid none).2
      = ((tsScan ((mk_msgs 0 calls).filter (fun m => m.memory_id == 0))).take
          mcl).reverse.map (fun m => (m.role, m.content, m.timestamp)) := by
    unfold get_context
    rw [hfind]
    rfl
  rw [hshow, mk_msgs_filter]
  have hperm := (hts (mk_msgs 0 calls)).1
  have hsorted := (hts (mk_msgs 0 calls)).2
  have hstrict : (mk_msgs 0 calls).reverse.Pairwise
      (fun a b => b.timestamp < a.timestamp) :=
    List.pairwise_reverse.mpr (mk_msgs_pairwise_lt calls hmono 0)
  have heq : tsScan (mk_msgs 0 calls) = (mk_msgs 0 calls).reverse :=
    perm_sorted_desc_eq (mk_msgs 0 calls).reverse (tsScan (mk_msgs 0 calls))
      (hperm.trans (List.reverse_perm (mk_msgs 0 calls)).symm) hstrict hsorted
  rw [heq, List.take_reverse, List.reverse_reverse, mk_msgs_length,
    mk_msgs_drop, mk_msgs_map]

/-- Claim C2, counterexample: the claim asserts insertion order even when
timestamps collide, but `get_context` orders by message timestamp and the
tie order is unspecified.  Two `add_message` calls with equal timestamps
under the valid stable scan `tsDesc` (max_context_length 1, so N = 2 >
max_context_length): the window holds the FIRST inserted message, not the
last one the claim requires. -/
theorem C2_collision_counterexample :
    ValidTsDesc tsDesc ∧
    (get_context tsDesc 1
        (run_adds tsDesc 1 DB.empty "s" [("user", "a", 5), ("user", "b", 5)])
        "s" none).2 = [("user", "a", 5)] ∧
    [(("user", "a", (5 : Int)) : String × String × Int)]
      ≠ [("user", "b", (5 : Int))] :=
  ⟨validTsDesc_tsDesc, by decide, by decide⟩

/-- Claim C2 as amended: for every sequence of N `add_message` calls on
one session with N > max_context_length > 0 and message timestamps
strictly increasing in insertion order, `get_context` with no explicit
limit returns exactly `max_context_length` messages — the last
`max_context_length` inserted, oldest to newest — under every valid
timestamp-descending scan order.  (When timestamps collide the selection
follows the store's timestamp order with unspecified ties, so insertion
order is not guaranteed.) -/
theorem C2_bounded_window (tsScan : List MemoryMessage → List MemoryMessage)
    (hts : ValidTsDesc tsScan) (mcl : Nat) (sid : String)
    (calls : List (String × String × Int))
    (hmono : calls.Pairwise (fun a b => a.2.2 < b.2.2))
    (hmcl : 0 < mcl) (hN : mcl < calls.length) :
    (get_context tsScan mcl (run_adds tsScan mcl DB.empty sid calls) sid none).2
      = (calls.drop (calls.length - mcl)).map (fun c => (c.1, c.2.1, c.2.2)) ∧
    (get_context tsScan mcl (run_adds tsScan mcl DB.empty sid calls) sid none).2.length
      = mcl := by
  cases calls with
  | nil => exact absurd hN (by simp)
  | cons c0 rest =>
    obtain ⟨cw2, ua2, hshape⟩ := run_adds_shape tsScan mcl sid c0 rest
    rw [hshape]
    have hmain := get_context_chain tsScan hts mcl sid cw2 ua2 c0.2.2 (c0 :: rest) hmono
    refine ⟨hmain, ?_⟩
    rw [hmain]
    rw [List.length_map, List.length_drop]
    simp only [List.length_cons] at hN ⊢
    omega

/-- Witness for the amended C2 at a concrete two-call run with strictly
increasing timestamps and max_context_length 1. -/
theorem C2_bounded_window_witness :
    (get_context tsDesc 1
        (run_adds tsDesc 1 DB.empty "s" [("user", "a", 1), ("user", "b", 2)])
        "s" none).2 = [("user", "b", 2)] :=
  (C2_bounded_window tsDesc validTsDesc_tsDesc 1 "s" [("user", "a", 1), ("user", "b", 2)]
    (by decide) (by decide) (by decide)).1

end HR
